import Mathlib

/-!
Verification of `ohlcv_to_csv.py` (Bybit OHLCV backfill fetcher).

The development shallowly embeds the program:
* a CSV/provider row (`Row`) is a timestamp plus the five OHLCV payload
  fields (prices and volume carried opaquely as rationals — the program
  never computes with them, it only moves them around);
* `fetchCandles` embeds `fetch_candles` (lines 29–44): per-attempt provider
  outcomes are a function `Nat → Option (List Row)`, and the second
  component of the result is the total exponential-backoff wait
  `2^attempt` summed over failed attempts (the fixed 0.5 s rate-limit
  sleep before each attempt is not part of this sum);
* `paginationLoop` embeds the `while True:` loop of `main` (lines 74–100),
  fuelled, with Python runtime errors (`IndexError` on `candles[-1]` of an
  empty list) and fetch exhaustion surfacing as `Except.error`;
* `mergePersist` embeds lines 102–106 (`concat`, `drop_duplicates("time")`
  keeping the first occurrence, `sort_values("time")`, `reset_index`);
* `runMain` / `mainProgram` compose these as `main` does; `diskAfter` /
  `mainDisk` record the on-disk contents after a run: the file is
  rewritten only by the final `to_csv` (line 108), which is reached only
  when the loop finishes without an exception.

The external provider is an environment `Env`: for each loop iteration
index, a page for every (since, attempt) pair, and the server clock
`exchange.milliseconds()` observed in that iteration.
-/

/-- One OHLCV row: `time` in ms since epoch plus open/high/low/close/volume. -/
structure Row where
  time : Int
  op : Rat
  hi : Rat
  lo : Rat
  cl : Rat
  vol : Rat
deriving DecidableEq, Repr

/-- `max_retries` default of `fetch_candles` (line 29); `main` uses the default. -/
def maxRetries : Nat := 5

/-- Message of the `ConnectionError` raised at line 44 (`max_retries` = 5). -/
def exhaustMsg : String := "Failed to fetch candles after 5 attempts."

/-- Python's `IndexError` message for `candles[-1]` on an empty list. -/
def indexErrorMsg : String := "IndexError: list index out of range"

/-- The retry loop of `fetch_candles` (lines 31–43): `attempt` is the current
attempt number, the second argument the attempts remaining.  Returns the first
successful page (if any) and the total backoff slept: `2^attempt` seconds
after each failed attempt. -/
def fetchCandlesAux (res : Nat → Option (List Row)) : Nat → Nat → Option (List Row) × Nat
  | _, 0 => (none, 0)
  | attempt, remaining + 1 =>
    match res attempt with
    | some page => (some page, 0)
    | none =>
      let rest := fetchCandlesAux res (attempt + 1) remaining
      (rest.1, 2 ^ attempt + rest.2)

/-- `fetch_candles` (lines 29–44): run the attempts starting at 1; when all
fail, raise (`ConnectionError` at line 44). -/
def fetchCandles (res : Nat → Option (List Row)) (retries : Nat) : Except String (List Row) × Nat :=
  match fetchCandlesAux res 1 retries with
  | (some page, w) => (Except.ok page, w)
  | (none, w) => (Except.error exhaustMsg, w)

/-- The provider/environment a run interacts with: `fetchAttempts k since a`
is the page (or failure) returned by `exchange.fetch_ohlcv` at loop
iteration `k`, request start `since`, attempt number `a`; `now k` is
`exchange.milliseconds()` observed at iteration `k` (line 85). -/
structure Env where
  fetchAttempts : Nat → Int → Nat → Option (List Row)
  now : Nat → Int

/-- `exchange.parse8601('2010-01-01T00:00:00Z')` (line 75) in milliseconds. -/
def epochFloor : Int := 1262304000000

/-- Line 75: `since = last_timestamp if last_timestamp else parse8601(...)`.
Python truthiness: the fallback fires when `last_timestamp` is `None` or `0`. -/
def sinceOf : Option Int → Int
  | some t => if t = 0 then epochFloor else t
  | none => epochFloor

/-- Lines 62–69: read the starting point.  When the file exists, take
`int(df_old["time"].iloc[-1])`, which raises on a data-less frame. -/
def initLastTimestamp : Option (List Row) → Except String (Option Int)
  | none => Except.ok none
  | some rows =>
    match rows.getLast? with
    | some r => Except.ok (some r.time)
    | none => Except.error indexErrorMsg

/-- The `since` value of the first `fetch_candles` call of a run: the first
loop iteration evaluates line 75 on the initial `last_timestamp`. -/
def firstFetchSince (oldFile : Option (List Row)) : Except String Int :=
  (initLastTimestamp oldFile).map sinceOf

/-- Lines 84–88: drop the trailing candle when its timestamp is at or past
the server clock.  (In `main` this runs only on a non-empty page; the
empty case is unreachable there.) -/
def trimUnclosed (currentTime : Int) (candles : List Row) : List Row :=
  match candles.getLast? with
  | some c => if c.time ≥ currentTime then candles.dropLast else candles
  | none => candles

/-- Line 91: `if previous_last and candles[-1][0] <= previous_last: break`.
Python truthiness skips the whole guard when `previous_last` is `None` or
`0`; otherwise `candles[-1]` raises `IndexError` on an empty (fully
trimmed) page. -/
def stallBreak (prevLast : Option Int) (trimmed : List Row) : Except String Bool :=
  match prevLast with
  | none => Except.ok false
  | some p =>
    if p = 0 then Except.ok false
    else
      match trimmed.getLast? with
      | none => Except.error indexErrorMsg
      | some c => Except.ok (decide (c.time ≤ p))

/-- What one pass of the `while True:` body does: `halt` ends the loop (a
`break` carrying `all_candles`, or an uncaught exception), `next` goes
round again with the updated `all_candles`, `previous_last`,
`last_timestamp`. -/
inductive StepResult where
  | halt (r : Except String (List Row))
  | next (acc : List Row) (prevLast lastTs : Option Int)
deriving Repr

/-- One iteration of the loop body of `main` (lines 75–97): compute `since`,
fetch with retries, `break` on an empty page, trim the unclosed candle,
apply the stall guard, then extend `all_candles` and advance the cursors. -/
def paginationStep (env : Env) (k : Nat) (acc : List Row) (prevLast lastTs : Option Int) : StepResult :=
  match (fetchCandles (env.fetchAttempts k (sinceOf lastTs)) maxRetries).1 with
  | Except.error e => StepResult.halt (Except.error e)
  | Except.ok candles =>
    if candles.isEmpty then StepResult.halt (Except.ok acc)
    else
      let trimmed := trimUnclosed (env.now k) candles
      match stallBreak prevLast trimmed with
      | Except.error e => StepResult.halt (Except.error e)
      | Except.ok true => StepResult.halt (Except.ok acc)
      | Except.ok false =>
        match trimmed.getLast? with
        | none => StepResult.halt (Except.error indexErrorMsg)
        | some c => StepResult.next (acc ++ trimmed) (some c.time) (some (c.time + 1))

/-- The `while True:` loop of `main` (lines 74–100), fuelled.  `none` means
the fuel ran out (the iteration count exceeded it — a model artifact);
`some (Except.error e)` means the loop raised (fetch exhaustion or
`IndexError`); `some (Except.ok acc)` means a `break` was reached with
`all_candles = acc`. -/
def paginationLoop (env : Env) : Nat → Nat → List Row → Option Int → Option Int → Option (Except String (List Row))
  | 0, _, _, _, _ => none
  | fuel + 1, k, acc, prevLast, lastTs =>
    match paginationStep env k acc prevLast lastTs with
    | StepResult.halt r => some r
    | StepResult.next acc' prevLast' lastTs' => paginationLoop env fuel (k + 1) acc' prevLast' lastTs'

/-- The loop state (`all_candles`, `previous_last`, `last_timestamp`) a run
holds on entering iteration `k`, starting from the initial cursor `lt0`:
`some` when the loop is still running at iteration `k` (the first `k`
passes all took the `next` branch), `none` when it halted earlier. -/
def loopState (env : Env) (lt0 : Option Int) : Nat → Option (List Row × Option Int × Option Int)
  | 0 => some ([], none, lt0)
  | k + 1 =>
    match loopState env lt0 k with
    | none => none
    | some (acc, pl, lt) =>
      match paginationStep env k acc pl lt with
      | StepResult.halt _ => none
      | StepResult.next acc' pl' lt' => some (acc', pl', lt')

/-- `drop_duplicates("time")` keeps the first row bearing each timestamp;
`seen` is the set of timestamps already emitted. -/
def dedupAux (seen : List Int) : List Row → List Row
  | [] => []
  | r :: rs => if r.time ∈ seen then dedupAux seen rs else r :: dedupAux (r.time :: seen) rs

/-- `drop_duplicates("time")` (line 106), keep-first policy (pandas default). -/
def dedupByTime (l : List Row) : List Row := dedupAux [] l

/-- Insert a row into a list sorted ascending by `time`. -/
def insertRow (r : Row) : List Row → List Row
  | [] => [r]
  | x :: xs => if r.time ≤ x.time then r :: x :: xs else x :: insertRow r xs

/-- `sort_values("time")` (line 106).  After deduplication the sort keys are
pairwise distinct, so any correct sort produces the same list; insertion
sort is used here. -/
def sortRows : List Row → List Row
  | [] => []
  | x :: xs => insertRow x (sortRows xs)

/-- Lines 102–106: concatenate old and new rows (`df_new` alone when the old
frame is empty), drop duplicate timestamps keeping the first occurrence,
sort ascending by timestamp, reindex densely. -/
def mergePersist (dfOld dfNew : List Row) : List Row :=
  let dfAll := if dfOld.isEmpty then dfNew else dfOld ++ dfNew
  sortRows (dedupByTime dfAll)

/-- `df_old` as a row list: an absent file is the empty frame of line 68. -/
def oldRows : Option (List Row) → List Row
  | none => []
  | some rows => rows

/-- `main` from line 62 on (after timeframe validation): read the starting
point, run the pagination loop, merge and return the rows written by
`to_csv` (line 108).  `some (Except.error e)` is an uncaught exception:
the program dies before line 108 and writes nothing. -/
def runMain (env : Env) (fuel : Nat) (oldFile : Option (List Row)) : Option (Except String (List Row)) :=
  match initLastTimestamp oldFile with
  | Except.error e => some (Except.error e)
  | Except.ok lt =>
    match paginationLoop env fuel 0 [] none lt with
    | none => none
    | some (Except.error e) => some (Except.error e)
    | some (Except.ok newCandles) => some (Except.ok (mergePersist (oldRows oldFile) newCandles))

/-- Contents of the output file after a run of `main`'s fetch/merge part:
`to_csv` (line 108) executes only when no exception was raised, so an
erroring run leaves the previous contents in place. -/
def diskAfter (env : Env) (fuel : Nat) (oldFile : Option (List Row)) : Option (Option (List Row)) :=
  match runMain env fuel oldFile with
  | none => none
  | some (Except.error _) => some oldFile
  | some (Except.ok rows) => some (some rows)

/-- The `valid` list of `validate_timeframe` (lines 20–21). -/
def validTimeframes : List String :=
  ["1m", "3m", "5m", "15m", "30m", "1h", "2h", "4h", "8h", "12h", "1d", "3d", "1w", "1M"]

/-- The `ValueError` message of line 23. -/
def invalidTimeframeMsg (tf : String) : String :=
  "Invalid timeframe '" ++ tf ++ "'. Try: " ++ toString validTimeframes

/-- `validate_timeframe` (lines 19–23). -/
def validateTimeframe (tf : String) : Except String Unit :=
  if tf ∈ validTimeframes then Except.ok () else Except.error (invalidTimeframeMsg tf)

/-- How a run of `main` ends. `validationFailure` is lines 53–57: the
`ValueError` is caught, its message printed, and `main` returns normally
(process exit status 0) with no fetch and no write.  `crashed` is an
uncaught exception; `completed` reached line 108 and wrote `rows`. -/
inductive MainOutcome where
  | validationFailure (msg : String)
  | completed (rows : List Row)
  | crashed (msg : String)
deriving DecidableEq, Repr

/-- `main` (lines 46–110): validate the timeframe first, then fetch/merge. -/
def mainProgram (tf : String) (env : Env) (fuel : Nat) (oldFile : Option (List Row)) : Option MainOutcome :=
  match validateTimeframe tf with
  | Except.error m => some (MainOutcome.validationFailure m)
  | Except.ok _ =>
    match runMain env fuel oldFile with
    | none => none
    | some (Except.error e) => some (MainOutcome.crashed e)
    | some (Except.ok rows) => some (MainOutcome.completed rows)

/-- Output-file contents after `main`: only a `completed` run rewrites it. -/
def mainDisk (tf : String) (env : Env) (fuel : Nat) (oldFile : Option (List Row)) : Option (Option (List Row)) :=
  match mainProgram tf env fuel oldFile with
  | none => none
  | some (MainOutcome.completed rows) => some (some rows)
  | some _ => some oldFile

/-! Concrete sample data used to exercise the model on closed inputs. -/

/-- A sample row: timestamp `t`, all payload fields equal to `v`. -/
def mkRow (t : Int) (v : Rat) : Row :=
  { time := t, op := v, hi := v, lo := v, cl := v, vol := v }

/-- A sample row with payload 1. -/
def rowAt (t : Int) : Row := mkRow t 1

/-- Provider that always returns an empty page (immediate end of history). -/
def envEmptyPages : Env :=
  { fetchAttempts := fun _ _ _ => some [], now := fun _ => 1000 }

/-- Provider whose every fetch attempt fails (network down). -/
def envAllFail : Env :=
  { fetchAttempts := fun _ _ _ => none, now := fun _ => 1000 }

/-- Provider that serves one good page (a closed candle at t = 100) and
then fails every attempt of every later fetch (network drops mid-run). -/
def envFailAfterOne : Env :=
  { fetchAttempts := fun k _ _ => if k = 0 then some [rowAt 100] else none
    now := fun _ => 1000 }

/-- Provider with one closed candle at t = 100, then end of history. -/
def envOnePage : Env :=
  { fetchAttempts := fun k _ _ => if k = 0 then some [rowAt 100] else some []
    now := fun _ => 1000 }

/-- Provider whose page is a single candle at or past the server clock:
trimming the unclosed candle empties the page. -/
def envTrimAll : Env :=
  { fetchAttempts := fun _ _ _ => some [rowAt 100], now := fun _ => 50 }

/-- Provider whose first page holds two candles at or past the server clock
(t = 5 and t = 6 with the clock at 5); later pages are empty. -/
def envTwoUnclosed : Env :=
  { fetchAttempts := fun k _ _ => if k = 0 then some [rowAt 5, rowAt 6] else some []
    now := fun _ => 5 }

/-- Provider stuck on a single candle at t = 0 (never advancing). -/
def envStuckAtZero : Env :=
  { fetchAttempts := fun _ _ _ => some [rowAt 0], now := fun _ => 10 }

/-- Provider that keeps returning a candle at t = 50 (not advancing past a
`previous_last` of 100). -/
def envStalled : Env :=
  { fetchAttempts := fun _ _ _ => some [rowAt 50], now := fun _ => 1000 }

/-- Per-attempt fetch outcomes failing on attempts 1 and 2, succeeding on 3. -/
def resFailTwice : Nat → Option (List Row) :=
  fun a => if a ≤ 2 then none else some [rowAt 7]

/-! ### Lemmas about the retry-wrapped fetch -/

theorem fetchCandlesAux_fst_some {res : Nat → Option (List Row)} {p : List Row} :
    ∀ {r a : Nat}, (fetchCandlesAux res a r).1 = some p → ∃ i, res i = some p := by
  intro r
  induction r with
  | zero => intro a h; simp [fetchCandlesAux] at h
  | succ r ih =>
    intro a h
    simp only [fetchCandlesAux] at h
    cases hres : res a with
    | some q =>
      rw [hres] at h
      simp at h
      exact ⟨a, by rw [hres, h]⟩
    | none =>
      rw [hres] at h
      simp at h
      exact ih h

theorem fetchCandles_ok_exists {res : Nat → Option (List Row)} {n : Nat} {p : List Row}
    (h : (fetchCandles res n).1 = Except.ok p) : ∃ i, res i = some p := by
  unfold fetchCandles at h
  cases haux : fetchCandlesAux res 1 n with
  | mk fst snd =>
    cases fst with
    | some q =>
      rw [haux] at h
      simp at h
      exact fetchCandlesAux_fst_some (p := p) (by rw [haux, h])
    | none => rw [haux] at h; simp at h

theorem fetchCandlesAux_exhaust {res : Nat → Option (List Row)} :
    ∀ {r a : Nat}, (∀ i, a ≤ i → i < a + r → res i = none) →
    (fetchCandlesAux res a r).1 = none := by
  intro r
  induction r with
  | zero => intro a _; simp [fetchCandlesAux]
  | succ r ih =>
    intro a h
    have ha : res a = none := h a le_rfl (by omega)
    simp only [fetchCandlesAux, ha]
    exact ih fun i h1 h2 => h i (by omega) (by omega)

theorem fetchCandles_exhaust {res : Nat → Option (List Row)} {n : Nat}
    (h : ∀ i, 1 ≤ i → i ≤ n → res i = none) :
    (fetchCandles res n).1 = Except.error exhaustMsg := by
  unfold fetchCandles
  have := @fetchCandlesAux_exhaust res n 1
    (fun i h1 h2 => h i h1 (by omega))
  cases haux : fetchCandlesAux res 1 n with
  | mk fst snd => rw [haux] at this; simp at this; subst this; simp

theorem fetchCandlesAux_success {res : Nat → Option (List Row)} {p : List Row} :
    ∀ (j a r : Nat), j < r → (∀ i, a ≤ i → i < a + j → res i = none) →
    res (a + j) = some p →
    fetchCandlesAux res a r = (some p, 2 ^ (a + j) - 2 ^ a) := by
  intro j
  induction j with
  | zero =>
    intro a r hr hfail hsucc
    cases r with
    | zero => omega
    | succ r => simp only [fetchCandlesAux]; rw [Nat.add_zero] at hsucc; simp [hsucc]
  | succ j ih =>
    intro a r hr hfail hsucc
    cases r with
    | zero => omega
    | succ r =>
      have ha : res a = none := hfail a le_rfl (by omega)
      simp only [fetchCandlesAux, ha]
      have hrec := ih (a + 1) r (by omega)
        (fun i h1 h2 => hfail i (by omega) (by omega))
        (by rw [show a + 1 + j = a + (j + 1) by omega]; exact hsucc)
      rw [hrec]
      have key : 2 ^ a + (2 ^ (a + 1 + j) - 2 ^ (a + 1)) = 2 ^ (a + (j + 1)) - 2 ^ a := by
        have e : a + 1 + j = a + (j + 1) := by omega
        rw [e]
        have h1 : (2:ℕ) ^ (a + 1) ≤ 2 ^ (a + (j + 1)) := by
          apply Nat.pow_le_pow_right <;> omega
        have h2 : (2:ℕ) ^ (a + 1) = 2 ^ a + 2 ^ a := by
          rw [pow_succ, Nat.mul_two]
        rw [← Nat.add_sub_assoc h1, h2]
        omega
      simp [key]

theorem geom_sum_Icc_one (k : Nat) : (∑ i in Finset.Icc 1 k, 2 ^ i) = 2 ^ (k + 1) - 2 := by
  induction k with
  | zero => simp
  | succ k ih =>
    rw [Finset.sum_Icc_succ_top (by omega), ih]
    have : 2 ≤ 2 ^ (k + 1) := by
      calc 2 = 2 ^ 1 := by norm_num
      _ ≤ 2 ^ (k + 1) := Nat.pow_le_pow_right (by omega) (by omega)
    have h2 : (2:ℕ) ^ (k + 1 + 1) = 2 ^ (k + 1) + 2 ^ (k + 1) := by rw [pow_succ]; omega
    omega

/-! ### Lemmas about deduplication and sorting -/

theorem mem_of_mem_dedupAux {r : Row} : ∀ {seen : List Int} {l : List Row},
    r ∈ dedupAux seen l → r ∈ l := by
  intro seen l
  induction l generalizing seen with
  | nil => intro h; simp [dedupAux] at h
  | cons x xs ih =>
    intro h
    simp only [dedupAux] at h
    by_cases hx : x.time ∈ seen
    · simp [hx] at h
      exact List.mem_cons_of_mem x (ih h)
    · simp [hx] at h
      rcases h with h | h
      · exact h ▸ List.mem_cons_self x xs
      · exact List.mem_cons_of_mem x (ih h)

theorem dedupAux_time_not_seen {r : Row} : ∀ {seen : List Int} {l : List Row},
    r ∈ dedupAux seen l → r.time ∉ seen := by
  intro seen l
  induction l generalizing seen with
  | nil => intro h; simp [dedupAux] at h
  | cons x xs ih =>
    intro h
    simp only [dedupAux] at h
    by_cases hx : x.time ∈ seen
    · simp [hx] at h
      exact ih h
    · simp [hx] at h
      rcases h with h | h
      · exact h ▸ hx
      · intro hc
        exact ih h (List.mem_cons_of_mem _ hc)

theorem dedupAux_nodup_times : ∀ (seen : List Int) (l : List Row),
    ((dedupAux seen l).map Row.time).Nodup := by
  intro seen l
  induction l generalizing seen with
  | nil => simp [dedupAux]
  | cons x xs ih =>
    simp only [dedupAux]
    by_cases hx : x.time ∈ seen
    · simp only [hx, if_true]
      exact ih seen
    · simp only [hx, if_false, List.map_cons, List.nodup_cons]
      refine ⟨?_, ih (x.time :: seen)⟩
      intro hmem
      rcases List.mem_map.mp hmem with ⟨r, hr, hrt⟩
      exact dedupAux_time_not_seen hr (by rw [hrt]; exact List.mem_cons_self _ _)

theorem dedupByTime_nodup_times (l : List Row) : ((dedupByTime l).map Row.time).Nodup :=
  dedupAux_nodup_times [] l

theorem find?_of_mem_dedupAux {r : Row} : ∀ {seen : List Int} {l : List Row},
    r ∈ dedupAux seen l → l.find? (fun x => decide (x.time = r.time)) = some r := by
  intro seen l
  induction l generalizing seen with
  | nil => intro h; simp [dedupAux] at h
  | cons x xs ih =>
    intro h
    have hns : r.time ∉ seen := dedupAux_time_not_seen h
    simp only [dedupAux] at h
    by_cases hx : x.time ∈ seen
    · simp [hx] at h
      have hne : x.time ≠ r.time := fun hc => hns (hc ▸ hx)
      rw [List.find?_cons]
      simp [hne]
      exact ih h
    · simp [hx] at h
      rcases h with h | h
      · subst h
        rw [List.find?_cons]
        simp
      · have hns' : r.time ∉ x.time :: seen := dedupAux_time_not_seen h
        have hne : x.time ≠ r.time := by
          intro hc
          exact hns' (hc ▸ List.mem_cons_self _ _)
        rw [List.find?_cons]
        simp [hne]
        exact ih h

theorem mem_dedupAux_of_find? {t : Int} {r : Row} : ∀ {seen : List Int} {l : List Row},
    l.find? (fun x => decide (x.time = t)) = some r → t ∉ seen →
    r ∈ dedupAux seen l := by
  intro seen l
  induction l generalizing seen with
  | nil => intro h _; simp at h
  | cons x xs ih =>
    intro h hts
    rw [List.find?_cons] at h
    by_cases hxt : x.time = t
    · simp [hxt] at h
      simp only [dedupAux]
      have hxs : x.time ∉ seen := by rw [hxt]; exact hts
      rw [if_neg hxs, ← h]
      exact List.mem_cons_self _ _
    · simp [hxt] at h
      simp only [dedupAux]
      by_cases hx : x.time ∈ seen
      · rw [if_pos hx]
        exact ih h hts
      · rw [if_neg hx]
        refine List.mem_cons_of_mem _ (ih h ?_)
        intro hc
        rcases List.mem_cons.mp hc with hc | hc
        · exact hxt hc.symm
        · exact hts hc

theorem insertRow_perm (r : Row) : ∀ (l : List Row), List.Perm (insertRow r l) (r :: l) := by
  intro l
  induction l with
  | nil => simp [insertRow]
  | cons x xs ih =>
    simp only [insertRow]
    by_cases hle : r.time ≤ x.time
    · rw [if_pos hle]
    · rw [if_neg hle]
      exact List.Perm.trans (List.Perm.cons x ih) (List.Perm.swap r x xs)

theorem sortRows_perm : ∀ (l : List Row), List.Perm (sortRows l) l := by
  intro l
  induction l with
  | nil => simp [sortRows]
  | cons x xs ih =>
    simp only [sortRows]
    exact List.Perm.trans (insertRow_perm x (sortRows xs)) (List.Perm.cons x ih)

theorem insertRow_pairwise {r : Row} {l : List Row}
    (h : l.Pairwise (fun a b => a.time ≤ b.time)) :
    (insertRow r l).Pairwise (fun a b => a.time ≤ b.time) := by
  induction l with
  | nil => simp [insertRow]
  | cons x xs ih =>
    simp only [insertRow]
    rcases List.pairwise_cons.mp h with ⟨hx, hxs⟩
    by_cases hle : r.time ≤ x.time
    · rw [if_pos hle]
      refine List.pairwise_cons.mpr ⟨?_, h⟩
      intro b hb
      rcases List.mem_cons.mp hb with hb | hb
      · exact hb ▸ hle
      · exact le_trans hle (hx b hb)
    · rw [if_neg hle]
      refine List.pairwise_cons.mpr ⟨?_, ih hxs⟩
      intro b hb
      rcases List.mem_cons.mp ((insertRow_perm r xs).mem_iff.mp hb) with hb | hb
      · exact hb ▸ le_of_not_le hle
      · exact hx b hb

theorem sortRows_pairwise : ∀ (l : List Row),
    (sortRows l).Pairwise (fun a b => a.time ≤ b.time) := by
  intro l
  induction l with
  | nil => simp [sortRows]
  | cons x xs ih => exact insertRow_pairwise ih

theorem sortRows_eq_of_pairwise : ∀ {l : List Row},
    l.Pairwise (fun a b => a.time ≤ b.time) → sortRows l = l := by
  intro l
  induction l with
  | nil => intro _; rfl
  | cons x xs ih =>
    intro h
    rcases List.pairwise_cons.mp h with ⟨hx, hxs⟩
    simp only [sortRows, ih hxs]
    cases xs with
    | nil => rfl
    | cons y ys =>
      simp only [insertRow]
      rw [if_pos (hx y (List.mem_cons_self _ _))]

/-! ### Lemmas about the merge step -/

theorem mergePersist_concat (dfOld dfNew : List Row) :
    mergePersist dfOld dfNew = sortRows (dedupByTime (dfOld ++ dfNew)) := by
  unfold mergePersist
  cases dfOld <;> simp

theorem mergePersist_times_pairwise_lt (dfOld dfNew : List Row) :
    ((mergePersist dfOld dfNew).map Row.time).Pairwise (· < ·) := by
  rw [mergePersist_concat]
  have hle : ((sortRows (dedupByTime (dfOld ++ dfNew))).map Row.time).Pairwise (· ≤ ·) :=
    (List.pairwise_map).mpr (sortRows_pairwise _)
  have hnd : ((sortRows (dedupByTime (dfOld ++ dfNew))).map Row.time).Nodup := by
    have hperm : List.Perm ((sortRows (dedupByTime (dfOld ++ dfNew))).map Row.time)
        ((dedupByTime (dfOld ++ dfNew)).map Row.time) :=
      (sortRows_perm _).map _
    exact hperm.nodup_iff.mpr (dedupByTime_nodup_times _)
  exact (hle.and hnd).imp fun h => lt_of_le_of_ne h.1 h.2

theorem mem_of_mem_mergePersist {r : Row} {dfOld dfNew : List Row}
    (h : r ∈ mergePersist dfOld dfNew) : r ∈ dfOld ++ dfNew := by
  rw [mergePersist_concat] at h
  exact mem_of_mem_dedupAux ((sortRows_perm _).mem_iff.mp h)

theorem mergePersist_keeps_first {dfOld dfNew : List Row} {t : Int} {rOld : Row}
    (h : dfOld.find? (fun x => decide (x.time = t)) = some rOld) :
    rOld ∈ mergePersist dfOld dfNew ∧
      ∀ r ∈ mergePersist dfOld dfNew, r.time = t → r = rOld := by
  have happ : (dfOld ++ dfNew).find? (fun x => decide (x.time = t)) = some rOld := by
    rw [List.find?_append, h]; rfl
  constructor
  · rw [mergePersist_concat]
    exact (sortRows_perm _).mem_iff.mpr
      (mem_dedupAux_of_find? happ (List.not_mem_nil t))
  · intro r hr hrt
    rw [mergePersist_concat] at hr
    have hded : r ∈ dedupByTime (dfOld ++ dfNew) := (sortRows_perm _).mem_iff.mp hr
    have hfind : (dfOld ++ dfNew).find? (fun x => decide (x.time = r.time)) = some r :=
      find?_of_mem_dedupAux hded
    rw [hrt] at hfind
    rw [happ] at hfind
    exact (Option.some_injective _ hfind).symm

theorem dedupAux_all_seen : ∀ {seen : List Int} {l : List Row},
    (∀ r ∈ l, r.time ∈ seen) → dedupAux seen l = [] := by
  intro seen l
  induction l with
  | nil => intro _; rfl
  | cons x xs ih =>
    intro h
    simp only [dedupAux]
    rw [if_pos (h x (List.mem_cons_self _ _))]
    exact ih fun r hr => h r (List.mem_cons_of_mem _ hr)

theorem dedupAux_append_absorb : ∀ {l1 : List Row} {seen : List Int} {l2 : List Row},
    (l1.map Row.time).Nodup → (∀ r ∈ l1, r.time ∉ seen) →
    (∀ r ∈ l2, r.time ∈ seen ∨ r.time ∈ l1.map Row.time) →
    dedupAux seen (l1 ++ l2) = l1 := by
  intro l1
  induction l1 with
  | nil =>
    intro seen l2 _ _ h2
    simp only [List.nil_append]
    exact dedupAux_all_seen fun r hr => (h2 r hr).resolve_right (by simp)
  | cons x xs ih =>
    intro seen l2 hnd h1 h2
    simp only [List.cons_append, dedupAux]
    rw [if_neg (h1 x (List.mem_cons_self _ _))]
    congr 1
    have hnd' : (x.time :: xs.map Row.time).Nodup := by rw [List.map_cons] at hnd; exact hnd
    rcases List.nodup_cons.mp hnd' with ⟨hxnotin, hxsnd⟩
    refine ih hxsnd ?_ ?_
    · intro r hr
      intro hc
      rcases List.mem_cons.mp hc with hc | hc
      · exact hxnotin (hc ▸ List.mem_map_of_mem Row.time hr)
      · exact h1 r (List.mem_cons_of_mem _ hr) hc
    · intro r hr
      rcases h2 r hr with hc | hc
      · exact Or.inl (List.mem_cons_of_mem _ hc)
      · have hc' : r.time ∈ x.time :: xs.map Row.time := by
          rw [List.map_cons] at hc; exact hc
        rcases List.mem_cons.mp hc' with hc | hc
        · exact Or.inl (hc ▸ List.mem_cons_self _ _)
        · exact Or.inr hc

theorem mergePersist_absorb {rows dfNew : List Row}
    (hsorted : (rows.map Row.time).Pairwise (· < ·))
    (hsub : ∀ c ∈ dfNew, c.time ∈ rows.map Row.time) :
    mergePersist rows dfNew = rows := by
  rw [mergePersist_concat]
  have hnd : (rows.map Row.time).Nodup := hsorted.imp ne_of_lt
  have hded : dedupByTime (rows ++ dfNew) = rows :=
    dedupAux_append_absorb hnd (fun r _ => List.not_mem_nil r.time)
      (fun r hr => Or.inr (hsub r hr))
  rw [dedupByTime] at hded
  rw [dedupByTime, hded]
  refine sortRows_eq_of_pairwise ?_
  exact (List.pairwise_map.mp hsorted).imp fun h => le_of_lt h

/-! ### Lemmas about the pagination loop -/


theorem trimUnclosed_all_lt {n : Int} {p : List Row}
    (h : ∀ c ∈ p.dropLast, c.time < n) :
    ∀ c ∈ trimUnclosed n p, c.time < n := by
  unfold trimUnclosed
  cases hg : p.getLast? with
  | none =>
    rw [List.getLast?_eq_none_iff.mp hg]
    intro c hc
    simp at hc
  | some lastC =>
    show ∀ c ∈ (if lastC.time ≥ n then p.dropLast else p), c.time < n
    by_cases hge : lastC.time ≥ n
    · rw [if_pos hge]
      exact h
    · rw [if_neg hge]
      intro c hc
      have hne : p ≠ [] := by intro hn; subst hn; simp at hg
      have hlast : p.getLast hne = lastC := by
        rw [List.getLast?_eq_getLast p hne] at hg
        exact Option.some_injective _ hg
      rw [← List.dropLast_append_getLast hne] at hc
      rcases List.mem_append.mp hc with hc | hc
      · exact h c hc
      · have hce : c = lastC := by rw [hlast] at hc; simpa using hc
        rw [hce]
        omega

theorem paginationStep_halt_ok_inv {env : Env} {k : Nat} {acc res : List Row}
    {pl lt : Option Int}
    (h : paginationStep env k acc pl lt = StepResult.halt (Except.ok res)) :
    res = acc := by
  unfold paginationStep at h
  cases hfe : (fetchCandles (env.fetchAttempts k (sinceOf lt)) maxRetries).1 with
  | error e => rw [hfe] at h; simp at h
  | ok candles =>
    rw [hfe] at h
    by_cases hemp : candles.isEmpty
    · simp [hemp] at h
      exact h.symm
    · simp only [hemp, if_false, Bool.false_eq_true] at h
      cases hsb : stallBreak pl (trimUnclosed (env.now k) candles) with
      | error e => rw [hsb] at h; simp at h
      | ok b =>
        rw [hsb] at h
        cases b with
        | true =>
          simp at h
          exact h.symm
        | false =>
          simp only [] at h
          cases hgl : (trimUnclosed (env.now k) candles).getLast? with
          | none => rw [hgl] at h; simp at h
          | some c => rw [hgl] at h; simp at h

theorem paginationStep_next_inv {env : Env} {k : Nat} {acc acc' : List Row}
    {pl lt pl' lt' : Option Int}
    (h : paginationStep env k acc pl lt = StepResult.next acc' pl' lt') :
    ∃ candles c,
      (fetchCandles (env.fetchAttempts k (sinceOf lt)) maxRetries).1 = Except.ok candles ∧
      (trimUnclosed (env.now k) candles).getLast? = some c ∧
      acc' = acc ++ trimUnclosed (env.now k) candles ∧
      pl' = some c.time ∧ lt' = some (c.time + 1) := by
  unfold paginationStep at h
  cases hfe : (fetchCandles (env.fetchAttempts k (sinceOf lt)) maxRetries).1 with
  | error e => rw [hfe] at h; simp at h
  | ok candles =>
    rw [hfe] at h
    by_cases hemp : candles.isEmpty
    · simp [hemp] at h
    · simp only [hemp, if_false, Bool.false_eq_true] at h
      cases hsb : stallBreak pl (trimUnclosed (env.now k) candles) with
      | error e => rw [hsb] at h; simp at h
      | ok b =>
        rw [hsb] at h
        cases b with
        | true => simp at h
        | false =>
          simp only [] at h
          cases hgl : (trimUnclosed (env.now k) candles).getLast? with
          | none => rw [hgl] at h; simp at h
          | some c =>
            rw [hgl] at h
            simp only [StepResult.next.injEq] at h
            exact ⟨candles, c, rfl, hgl, h.1.symm, h.2.1.symm, h.2.2.symm⟩

theorem paginationLoop_ok_provenance {env : Env} :
    ∀ {fuel k : Nat} {acc : List Row} {pl lt : Option Int} {res : List Row},
    paginationLoop env fuel k acc pl lt = some (Except.ok res) →
    ∀ c ∈ res, c ∈ acc ∨ ∃ j s a page, env.fetchAttempts j s a = some page ∧
      c ∈ trimUnclosed (env.now j) page := by
  intro fuel
  induction fuel with
  | zero => intro k acc pl lt res h; simp [paginationLoop] at h
  | succ fuel ih =>
    intro k acc pl lt res h
    rw [paginationLoop] at h
    cases hstep : paginationStep env k acc pl lt with
    | halt r =>
      rw [hstep] at h
      simp at h
      subst h
      intro c hc
      exact Or.inl (paginationStep_halt_ok_inv hstep ▸ hc)
    | next acc' pl' lt' =>
      rw [hstep] at h
      rcases paginationStep_next_inv hstep with ⟨candles, c0, hfe, hgl, hacc, hpl, hlt⟩
      intro c hc
      rcases ih h c hc with hin | hin
      · rw [hacc] at hin
        rcases List.mem_append.mp hin with hin | hin
        · exact Or.inl hin
        · rcases fetchCandles_ok_exists hfe with ⟨a, ha⟩
          exact Or.inr ⟨k, sinceOf lt, a, candles, ha, hin⟩
      · exact Or.inr hin

/-! ### Run-level helper lemmas -/

theorem paginationStep_exhaust {env : Env} {k : Nat} {acc : List Row} {pl lt : Option Int}
    (h : ∀ a, 1 ≤ a → a ≤ maxRetries → env.fetchAttempts k (sinceOf lt) a = none) :
    paginationStep env k acc pl lt = StepResult.halt (Except.error exhaustMsg) := by
  unfold paginationStep
  rw [fetchCandles_exhaust h]

theorem paginationLoop_exhaust {env : Env} {fuel k : Nat} {acc : List Row} {pl lt : Option Int}
    (hfail : ∀ a, 1 ≤ a → a ≤ maxRetries → env.fetchAttempts k (sinceOf lt) a = none)
    (hfuel : 1 ≤ fuel) :
    paginationLoop env fuel k acc pl lt = some (Except.error exhaustMsg) := by
  obtain ⟨fuel', rfl⟩ : ∃ f, fuel = f + 1 := ⟨fuel - 1, by omega⟩
  rw [paginationLoop, paginationStep_exhaust hfail]

theorem runMain_ok_inv {env : Env} {fuel : Nat} {oldFile : Option (List Row)} {rows : List Row}
    (h : runMain env fuel oldFile = some (Except.ok rows)) :
    ∃ newCandles lt, initLastTimestamp oldFile = Except.ok lt ∧
      paginationLoop env fuel 0 [] none lt = some (Except.ok newCandles) ∧
      rows = mergePersist (oldRows oldFile) newCandles := by
  unfold runMain at h
  split at h
  · simp at h
  · rename_i lt heq
    split at h
    · simp at h
    · simp at h
    · rename_i newCandles heq2
      simp at h
      exact ⟨newCandles, lt, heq, heq2, h.symm⟩

theorem diskAfter_of_error {env : Env} {fuel : Nat} {oldFile : Option (List Row)} {e : String}
    (h : runMain env fuel oldFile = some (Except.error e)) :
    diskAfter env fuel oldFile = some oldFile := by
  unfold diskAfter
  rw [h]

theorem paginationLoop_from_loopState {env : Env} {lt0 : Option Int} :
    ∀ {k : Nat} {acc : List Row} {pl lt : Option Int} (j : Nat),
    loopState env lt0 k = some (acc, pl, lt) →
    paginationLoop env (k + j) 0 [] none lt0 = paginationLoop env j k acc pl lt := by
  intro k
  induction k with
  | zero =>
    intro acc pl lt j h
    simp only [loopState, Option.some.injEq, Prod.mk.injEq] at h
    obtain ⟨h1, h2, h3⟩ := h
    subst h1
    subst h2
    subst h3
    rw [Nat.zero_add]
  | succ k ih =>
    intro acc pl lt j h
    cases hk : loopState env lt0 k with
    | none =>
      simp only [loopState, hk] at h
      cases h
    | some s =>
      obtain ⟨acc1, pl1, lt1⟩ := s
      simp only [loopState, hk] at h
      cases hstep : paginationStep env k acc1 pl1 lt1 with
      | halt r => rw [hstep] at h; simp at h
      | next acc' pl' lt' =>
        rw [hstep] at h
        simp only [Option.some.injEq, Prod.mk.injEq] at h
        obtain ⟨h1, h2, h3⟩ := h
        subst h1
        subst h2
        subst h3
        calc paginationLoop env (k + 1 + j) 0 [] none lt0
            = paginationLoop env (k + (j + 1)) 0 [] none lt0 := by
              rw [show k + 1 + j = k + (j + 1) by omega]
          _ = paginationLoop env (j + 1) k acc1 pl1 lt1 := ih (j + 1) hk
          _ = paginationLoop env j (k + 1) acc' pl' lt' := by
              rw [paginationLoop, hstep]

/-! ### Claim theorems -/

/-- C1: for every run that completes and writes the output file, the
persisted series is strictly ascending by timestamp — adjacent rows satisfy
`time[i] < time[i+1]` — and consequently every timestamp present appears in
exactly one row. -/
theorem persisted_series_strictly_ascending
    (env : Env) (fuel : Nat) (oldFile : Option (List Row)) (rows : List Row)
    (h : runMain env fuel oldFile = some (Except.ok rows)) :
    List.Chain' (· < ·) (rows.map Row.time) ∧
    ∀ t ∈ rows.map Row.time, (rows.map Row.time).count t = 1 := by
  rcases runMain_ok_inv h with ⟨newC, lt, _, _, hrows⟩
  subst hrows
  have hp := mergePersist_times_pairwise_lt (oldRows oldFile) newC
  refine ⟨hp.chain', ?_⟩
  intro t ht
  exact List.count_eq_one_of_mem (hp.imp ne_of_lt) ht

/-- Witness for C1: a concrete completing run producing one row. -/
theorem persisted_series_strictly_ascending_witness :
    runMain envOnePage 2 none = some (Except.ok [rowAt 100]) ∧
    (List.Chain' (· < ·) ([rowAt 100].map Row.time) ∧
      ∀ t ∈ [rowAt 100].map Row.time, ([rowAt 100].map Row.time).count t = 1) :=
  ⟨rfl, persisted_series_strictly_ascending envOnePage 2 none [rowAt 100] rfl⟩

/-- C2: whenever a run reaches a loop iteration — any iteration, the first
or one after accepted pages — whose page fetch fails `max_retries` (5)
consecutive times, the run aborts with the retries-exhausted error (the
spec's `FetchExhaustedError`, a `ConnectionError` in the source) and no
write occurs: the on-disk file is left exactly as it was. -/
theorem fetch_exhaustion_aborts_run_no_write
    (env : Env) (fuel : Nat) (oldFile : Option (List Row)) (lt0 : Option Int)
    (k : Nat) (acc : List Row) (pl lt : Option Int)
    (hinit : initLastTimestamp oldFile = Except.ok lt0)
    (hreach : loopState env lt0 k = some (acc, pl, lt))
    (hfail : ∀ a, 1 ≤ a → a ≤ maxRetries → env.fetchAttempts k (sinceOf lt) a = none)
    (hfuel : k < fuel) :
    runMain env fuel oldFile = some (Except.error exhaustMsg) ∧
    diskAfter env fuel oldFile = some oldFile := by
  have hloop : paginationLoop env fuel 0 [] none lt0 = some (Except.error exhaustMsg) := by
    obtain ⟨j, hj⟩ : ∃ j, fuel = k + (j + 1) := ⟨fuel - k - 1, by omega⟩
    subst hj
    rw [paginationLoop_from_loopState (j + 1) hreach]
    exact paginationLoop_exhaust hfail (by omega)
  have hrun : runMain env fuel oldFile = some (Except.error exhaustMsg) := by
    unfold runMain
    simp only [hinit]
    rw [hloop]
  exact ⟨hrun, diskAfter_of_error hrun⟩

/-- Witness for C2: the provider serves one good page, then every attempt
of the second page fetch fails — a mid-run exhaustion at iteration 1. -/
theorem fetch_exhaustion_aborts_run_no_write_witness :
    runMain envFailAfterOne 2 none = some (Except.error exhaustMsg) ∧
    diskAfter envFailAfterOne 2 none = some none :=
  fetch_exhaustion_aborts_run_no_write envFailAfterOne 2 none none 1
    [rowAt 100] (some 100) (some 101) rfl rfl (fun _ _ _ => rfl) (by omega)

/-- C3: when the provider call fails exactly `k < max_retries` times and
then succeeds, `fetch_candles` returns the successful page unchanged and
the total exponential-backoff wait is at least `2^1 + 2^2 + ... + 2^k`
seconds (the fixed rate-limit delay is separate and not counted here). -/
theorem retry_backoff_success
    (res : Nat → Option (List Row)) (k : Nat) (p : List Row)
    (hk : k < maxRetries)
    (hfail : ∀ i, 1 ≤ i → i ≤ k → res i = none)
    (hsucc : res (k + 1) = some p) :
    (fetchCandles res maxRetries).1 = Except.ok p ∧
    (∑ i in Finset.Icc 1 k, 2 ^ i) ≤ (fetchCandles res maxRetries).2 := by
  have haux := @fetchCandlesAux_success res p k 1 maxRetries hk
    (fun i h1 h2 => hfail i h1 (by omega))
    (by rw [show 1 + k = k + 1 by omega]; exact hsucc)
  unfold fetchCandles
  rw [haux]
  refine ⟨rfl, ?_⟩
  rw [geom_sum_Icc_one]
  have he : 1 + k = k + 1 := by omega
  rw [he]
  simp [pow_one]

/-- Witness for C3: two failures then success (`k = 2`), backoff 6 ≥ 6. -/
theorem retry_backoff_success_witness :
    (fetchCandles resFailTwice maxRetries).1 = Except.ok [rowAt 7] ∧
    (∑ i in Finset.Icc 1 2, 2 ^ i) ≤ (fetchCandles resFailTwice maxRetries).2 :=
  retry_backoff_success resFailTwice 2 [rowAt 7] (by decide)
    (fun i h1 h2 => by
      have hi : i = 1 ∨ i = 2 := by omega
      rcases hi with hi | hi <;> subst hi <;> rfl)
    rfl

/-- C4 (code bug): the claim and spec say that when trimming the single
trailing unclosed candle empties the page the loop continues without error
and fetches again; in the code, the very next statement indexes
`candles[-1]` on the now-empty list, so the run dies with an uncaught
`IndexError` and writes nothing.  Here the provider returns the page
`[rowAt 100]` with the server clock at 50, so the whole page is trimmed. -/
theorem trim_empties_page_raises_index_error :
    runMain envTrimAll 1 none = some (Except.error indexErrorMsg) ∧
    diskAfter envTrimAll 1 none = some none :=
  ⟨rfl, rfl⟩

/-- C5 counterexample: the code removes only the single trailing candle.
With the server clock at 5 and a (chronologically ordered) page holding
two candles at times 5 and 6 — both at/past the clock — the candle at
time 5 survives the trim and is persisted, though its timestamp is ≥ the
server time observed at its page's fetch. -/
theorem unclosed_candle_can_persist :
    runMain envTwoUnclosed 2 none = some (Except.ok [rowAt 5]) ∧
    (rowAt 5).time ≥ envTwoUnclosed.now 0 :=
  ⟨rfl, by decide⟩

/-- C5 amended: provided every fetched page contains at most one candle —
the trailing one — whose timestamp is ≥ that iteration's server time, every
persisted row either comes from the pre-existing file or was accepted from
the trimmed page of some iteration `j` and has a timestamp strictly below
the server time observed at that very iteration. -/
theorem unclosed_candles_excluded
    (env : Env) (fuel : Nat) (oldFile : Option (List Row)) (rows : List Row)
    (hpages : ∀ j s a page, env.fetchAttempts j s a = some page →
      ∀ c ∈ page.dropLast, c.time < env.now j)
    (h : runMain env fuel oldFile = some (Except.ok rows)) :
    ∀ r ∈ rows, r ∈ oldRows oldFile ∨
      ∃ j s a page, env.fetchAttempts j s a = some page ∧
        r ∈ trimUnclosed (env.now j) page ∧ r.time < env.now j := by
  rcases runMain_ok_inv h with ⟨newC, lt, _hinit, hloop, hrows⟩
  subst hrows
  intro r hr
  rcases List.mem_append.mp (mem_of_mem_mergePersist hr) with hro | hrn
  · exact Or.inl hro
  · rcases paginationLoop_ok_provenance hloop r hrn with hin | ⟨j, s, a, page, hpage, hmem⟩
    · simp at hin
    · exact Or.inr ⟨j, s, a, page, hpage, hmem,
        trimUnclosed_all_lt (hpages j s a page hpage) r hmem⟩

/-- Witness for C5 amended: a completing run with one closed candle; the
persisted row at t = 100 was fetched at some iteration whose server clock
(1000) strictly exceeds its timestamp. -/
theorem unclosed_candles_excluded_witness :
    runMain envOnePage 2 none = some (Except.ok [rowAt 100]) ∧
    (rowAt 100 ∈ oldRows none ∨
      ∃ j s a page, envOnePage.fetchAttempts j s a = some page ∧
        rowAt 100 ∈ trimUnclosed (envOnePage.now j) page ∧
        (rowAt 100).time < envOnePage.now j) :=
  ⟨rfl,
    unclosed_candles_excluded envOnePage 2 none [rowAt 100]
      (by
        intro j s a page hp c hc
        unfold envOnePage at hp
        by_cases hj : j = 0
        · simp only [hj, if_true] at hp
          cases hp
          simp at hc
        · simp only [hj, if_false] at hp
          cases hp
          simp at hc)
      rfl (rowAt 100) (List.mem_cons_self _ _)⟩

/-- C6 counterexample: Python's `if previous_last and ...` treats a
`previous_last` of 0 as false, so the stall guard is skipped entirely.
With a provider stuck on a candle at time 0, the guard reports no stall
even though the last accepted timestamp (0) is ≤ `previous_last` (0), and
the run keeps iterating until the fuel (3 iterations here) is exhausted
instead of transitioning to DONE. -/
theorem stall_guard_skipped_at_zero :
    stallBreak (some 0) [rowAt 0] = Except.ok false ∧
    runMain envStuckAtZero 3 none = none :=
  ⟨rfl, rfl⟩

/-- C6 amended: after the first accepted page, if `previous_last` is
nonzero (as it always is when the provider honours the positive epoch
floor) and the page's last accepted candle timestamp is ≤ `previous_last`,
the loop terminates at once, returning the accumulated candles. -/
theorem stall_terminates
    (env : Env) (fuel k : Nat) (acc : List Row) (p : Int) (lt : Option Int)
    (candles : List Row) (lastC : Row)
    (hp : p ≠ 0)
    (hfetch : (fetchCandles (env.fetchAttempts k (sinceOf lt)) maxRetries).1 = Except.ok candles)
    (hne : candles.isEmpty = false)
    (hlast : (trimUnclosed (env.now k) candles).getLast? = some lastC)
    (hle : lastC.time ≤ p)
    (hfuel : 1 ≤ fuel) :
    paginationLoop env fuel k acc (some p) lt = some (Except.ok acc) := by
  obtain ⟨fuel', rfl⟩ : ∃ f, fuel = f + 1 := ⟨fuel - 1, by omega⟩
  rw [paginationLoop]
  have hstep : paginationStep env k acc (some p) lt = StepResult.halt (Except.ok acc) := by
    unfold paginationStep
    rw [hfetch]
    simp only [hne, if_false, Bool.false_eq_true]
    have hsb : stallBreak (some p) (trimUnclosed (env.now k) candles) = Except.ok true := by
      show (if p = 0 then Except.ok false
        else
          match (trimUnclosed (env.now k) candles).getLast? with
          | none => Except.error indexErrorMsg
          | some c => Except.ok (decide (c.time ≤ p))) = Except.ok true
      rw [if_neg hp, hlast]
      simp [hle]
    rw [hsb]
  rw [hstep]

/-- Witness for C6 amended: `previous_last = 100`, page stuck at time 50. -/
theorem stall_terminates_witness :
    paginationLoop envStalled 1 1 [rowAt 100] (some 100) (some 101) =
      some (Except.ok [rowAt 100]) :=
  stall_terminates envStalled 1 1 [rowAt 100] 100 (some 101) [rowAt 50] (rowAt 50)
    (by decide) rfl rfl rfl (by decide) (by omega)

/-- C7: running the fetcher a second time over a stable historical range —
every candle surviving the unclosed-candle trim in the second run is one
already stored — reproduces the first run's file exactly: same content and
hence the same row count. -/
theorem rerun_idempotent
    (env1 env2 : Env) (fuel1 fuel2 : Nat) (oldFile : Option (List Row))
    (rows1 rows2 : List Row)
    (h1 : runMain env1 fuel1 oldFile = some (Except.ok rows1))
    (hstable : ∀ j s a page, env2.fetchAttempts j s a = some page →
      ∀ c ∈ trimUnclosed (env2.now j) page, c.time ∈ rows1.map Row.time)
    (h2 : runMain env2 fuel2 (some rows1) = some (Except.ok rows2)) :
    rows2 = rows1 ∧ rows2.length = rows1.length := by
  rcases runMain_ok_inv h1 with ⟨newC1, lt1, _, _, hrows1⟩
  rcases runMain_ok_inv h2 with ⟨newC2, lt2, _, hloop2, hrows2⟩
  have hsorted : (rows1.map Row.time).Pairwise (· < ·) := by
    rw [hrows1]
    exact mergePersist_times_pairwise_lt _ _
  have hsub : ∀ c ∈ newC2, c.time ∈ rows1.map Row.time := by
    intro c hc
    rcases paginationLoop_ok_provenance hloop2 c hc with hin | ⟨j, s, a, page, hpage, hmem⟩
    · simp at hin
    · exact hstable j s a page hpage c hmem
  have heq : rows2 = rows1 := by
    rw [hrows2]
    show mergePersist rows1 newC2 = rows1
    exact mergePersist_absorb hsorted hsub
  exact ⟨heq, by rw [heq]⟩

/-- Witness for C7: first run stores the candle at t = 100; the second run
sees only empty pages (no new closed candles) and leaves the file as is. -/
theorem rerun_idempotent_witness :
    ([rowAt 100] : List Row) = [rowAt 100] ∧
    ([rowAt 100] : List Row).length = ([rowAt 100] : List Row).length :=
  rerun_idempotent envOnePage envEmptyPages 2 1 none [rowAt 100] [rowAt 100]
    rfl
    (by
      intro j s a page hp c hc
      unfold envEmptyPages at hp
      cases hp
      simp [trimUnclosed] at hc)
    rfl

/-- C8 counterexample: line 75 tests `last_timestamp` for truthiness, and
Python treats the integer 0 as false.  With a prior dataset whose last
stored candle has timestamp 0, the first fetch starts from the epoch floor
instead of from the last stored timestamp, contradicting the claim. -/
theorem first_since_ignores_zero_timestamp :
    firstFetchSince (some [rowAt 0]) = Except.ok epochFloor ∧
    epochFloor ≠ (rowAt 0).time :=
  ⟨rfl, by decide⟩

/-- C8 amended: the first fetch's `since` equals the last stored candle's
timestamp whenever a prior dataset exists and that timestamp is nonzero,
and equals the fixed epoch floor
`parse8601('2010-01-01T00:00:00Z') = 1262304000000` when no prior dataset
exists or when the last stored timestamp is 0 (Python truthiness on line
75 sends the integer 0 to the fallback). -/
theorem first_fetch_since_spec
    (oldFile : Option (List Row)) (rows : List Row) (r : Row) :
    (oldFile = none → firstFetchSince oldFile = Except.ok epochFloor) ∧
    (oldFile = some rows → rows.getLast? = some r → r.time ≠ 0 →
      firstFetchSince oldFile = Except.ok r.time) ∧
    (oldFile = some rows → rows.getLast? = some r → r.time = 0 →
      firstFetchSince oldFile = Except.ok epochFloor) := by
  have hinit : ∀ (rows' : List Row) (r' : Row), rows'.getLast? = some r' →
      initLastTimestamp (some rows') = Except.ok (some r'.time) := by
    intro rows' r' hlast
    show (match rows'.getLast? with
      | some r => Except.ok (some r.time)
      | none => Except.error indexErrorMsg) = Except.ok (some r'.time)
    rw [hlast]
  refine ⟨?_, ?_, ?_⟩
  · intro h
    subst h
    rfl
  · intro h hlast hne
    subst h
    show (initLastTimestamp (some rows)).map sinceOf = Except.ok r.time
    rw [hinit rows r hlast]
    show Except.ok (sinceOf (some r.time)) = Except.ok r.time
    have hs : sinceOf (some r.time) = r.time := by
      show (if r.time = 0 then epochFloor else r.time) = r.time
      rw [if_neg hne]
    rw [hs]
  · intro h hlast hzero
    subst h
    show (initLastTimestamp (some rows)).map sinceOf = Except.ok epochFloor
    rw [hinit rows r hlast]
    show Except.ok (sinceOf (some r.time)) = Except.ok epochFloor
    have hs : sinceOf (some r.time) = epochFloor := by
      show (if r.time = 0 then epochFloor else r.time) = epochFloor
      rw [if_pos hzero]
    rw [hs]

/-- Witness for C8 amended: all three branches at concrete inputs. -/
theorem first_fetch_since_spec_witness :
    firstFetchSince none = Except.ok epochFloor ∧
    firstFetchSince (some [rowAt 100]) = Except.ok (rowAt 100).time ∧
    firstFetchSince (some [rowAt 0]) = Except.ok epochFloor :=
  ⟨(first_fetch_since_spec none [] (rowAt 0)).1 rfl,
   (first_fetch_since_spec (some [rowAt 100]) [rowAt 100] (rowAt 100)).2.1 rfl rfl (by decide),
   (first_fetch_since_spec (some [rowAt 0]) [rowAt 0] (rowAt 0)).2.2 rfl rfl (by decide)⟩

/-- C9: an invalid timeframe makes `main` print the `ValueError` message —
which names the offending value and the allowed list — and return normally
(exit status 0): no fetch is attempted (the conclusion holds for every
provider environment) and the output file is untouched. -/
theorem invalid_timeframe_rejected
    (tf : String) (env : Env) (fuel : Nat) (oldFile : Option (List Row))
    (h : tf ∉ validTimeframes) :
    mainProgram tf env fuel oldFile =
      some (MainOutcome.validationFailure (invalidTimeframeMsg tf)) ∧
    mainDisk tf env fuel oldFile = some oldFile ∧
    ∃ pre post, invalidTimeframeMsg tf = pre ++ tf ++ post := by
  have hv : validateTimeframe tf = Except.error (invalidTimeframeMsg tf) := by
    unfold validateTimeframe
    rw [if_neg h]
  have hm : mainProgram tf env fuel oldFile =
      some (MainOutcome.validationFailure (invalidTimeframeMsg tf)) := by
    unfold mainProgram
    rw [hv]
  refine ⟨hm, ?_, "Invalid timeframe '", "'. Try: " ++ toString validTimeframes, ?_⟩
  · unfold mainDisk
    rw [hm]
  · unfold invalidTimeframeMsg
    exact String.append_assoc _ _ _

/-- Witness for C9: the timeframe string `7x` is not in the allowed set. -/
theorem invalid_timeframe_rejected_witness :
    mainProgram "7x" envEmptyPages 1 none =
      some (MainOutcome.validationFailure (invalidTimeframeMsg "7x")) ∧
    mainDisk "7x" envEmptyPages 1 none = some none ∧
    ∃ pre post, invalidTimeframeMsg "7x" = pre ++ "7x" ++ post :=
  invalid_timeframe_rejected "7x" envEmptyPages 1 none (by decide)

/-- C10: when a timestamp occurs both in the previously stored rows and in
the newly fetched ones, the persisted result keeps the previously stored
row (the first occurrence in the old-before-new concatenation) and every
row of the result at that timestamp is that old row — the fetched copy is
discarded. -/
theorem overlap_kept_from_old
    (dfOld dfNew : List Row) (t : Int) (rOld : Row)
    (hfind : dfOld.find? (fun x => decide (x.time = t)) = some rOld) :
    rOld ∈ mergePersist dfOld dfNew ∧
    ∀ r ∈ mergePersist dfOld dfNew, r.time = t → r = rOld :=
  mergePersist_keeps_first hfind

/-- Witness for C10: old and new both carry t = 100 with different
payloads; the old payload wins. -/
theorem overlap_kept_from_old_witness :
    mkRow 100 1 ∈ mergePersist [mkRow 100 1, rowAt 200] [mkRow 100 2, rowAt 300] ∧
    ∀ r ∈ mergePersist [mkRow 100 1, rowAt 200] [mkRow 100 2, rowAt 300],
      r.time = 100 → r = mkRow 100 1 :=
  overlap_kept_from_old [mkRow 100 1, rowAt 200] [mkRow 100 2, rowAt 300] 100
    (mkRow 100 1) rfl
